import Mathlib

/-!
Verification of the L-system generative-art core: the string-rewriting
engine (`LSystem` in src/lsystem.ts) and the turtle renderer
(`TurtleRenderer` in src/lsystem.ts).

Strings are embedded as `List Char`; the `Map<string, string>` of rules
is embedded as the lookup function `Char → Option (List Char)` it
induces (a key is only ever queried at single characters).
-/

namespace LSys

/-- One substitution rule, mirroring `interface LSystemRule \x7b from; to \x7d`.
(`from` is a Lean keyword, so the fields are `src`/`dst`.) -/
structure LSystemRule where
  src : List Char
  dst : List Char
deriving DecidableEq

/-- The rule map built by the constructor loop
`for (const rule of rules) this.rules.set(rule.from, rule.to)`:
later rules with the same key overwrite earlier ones, and
`rules.get(char)` queries the map at the one-character string `[c]`. -/
def buildRules (rules : List LSystemRule) (c : Char) : Option (List Char) :=
  (rules.reverse.find? (fun r => r.src = [c])).map (fun r => r.dst)

/-- State of one `LSystem` instance: the construction-time axiom string
(field `axiom` in the source; named `seed` here because `axiom` is a
Lean keyword), the rule map, `currentGeneration` and `generation`. -/
structure LSystem where
  seed : List Char
  rules : Char → Option (List Char)
  currentGeneration : List Char
  generation : Nat

/-- The constructor `new LSystem(axiom, rules)`:
`currentGeneration = axiom`, `generation = 0`. -/
def LSystem.create (a : List Char) (rules : Char → Option (List Char)) : LSystem :=
  { seed := a, rules := rules, currentGeneration := a, generation := 0 }

/-- Source `replacement || char`: `rules.get(char)` falls back to the character
itself both when the map has no entry (`undefined`) and when the stored
replacement is the empty string, because `""` is falsy in JavaScript. -/
def lookupRepl (rules : Char → Option (List Char)) (c : Char) : List Char :=
  match rules c with
  | some r => if r.isEmpty then [c] else r
  | none => [c]

/-- The loop body of `iterate()` / the sampling loop of
`getEstimatedLength`: `newGeneration += replacement || char` over the
characters of the input, starting from the empty accumulator. -/
def stepString (rules : Char → Option (List Char)) (s : List Char) : List Char :=
  s.foldl (fun acc c => acc ++ lookupRepl rules c) []

/-- Source `iterate()`: rewrite `currentGeneration` and bump `generation`. -/
def LSystem.iterate (st : LSystem) : LSystem :=
  { st with currentGeneration := stepString st.rules st.currentGeneration,
            generation := st.generation + 1 }

/-- Source `iterateN(n)`: `for (let i = 0; i < n; i++) this.iterate()`. -/
def LSystem.iterateN (st : LSystem) : Nat → LSystem
  | 0 => st
  | n + 1 => st.iterate.iterateN n

/-- Source `reset()`: restore the axiom and zero the generation counter. -/
def LSystem.reset (st : LSystem) : LSystem :=
  { st with currentGeneration := st.seed, generation := 0 }

/-- Source `getCurrentGeneration()`. -/
def LSystem.getCurrentGeneration (st : LSystem) : List Char :=
  st.currentGeneration

/-- Source `getGeneration()`. -/
def LSystem.getGeneration (st : LSystem) : Nat :=
  st.generation

/-- The private generator `expandString(str, iterations)`: at depth 0 it
yields the characters of `str`; at depth `n+1` it expands, for each
character, `this.rules.get(char) || char` at depth `n`. The sequence of
yielded characters is embedded as the concatenation of the recursive
yields. -/
def expandString (rules : Char → Option (List Char)) : List Char → Nat → List Char
  | s, 0 => s
  | s, n + 1 => s.flatMap (fun c => expandString rules (lookupRepl rules c) n)

/-- Source `generateCommands(iterations)`: yield the axiom itself when
`iterations === 0`, otherwise `expandString(axiom, iterations)`. -/
def LSystem.generateCommands (st : LSystem) (iterations : Nat) : List Char :=
  if iterations = 0 then st.seed
  else expandString st.rules st.seed iterations

/-- A method call `st.generateCommands(n)` as (result, post-state): the
method body assigns no instance field, so the receiver is returned
unchanged. -/
def LSystem.generateCommandsCall (st : LSystem) (n : Nat) : List Char × LSystem :=
  (st.generateCommands n, st)

/-- Source `getEstimatedLength(iterations)`, in exact arithmetic: sample
`min(3, iterations)` eager rewrites of the axiom; return the sampled
length exactly when the sample reached `iterations`, otherwise
extrapolate `round(axiomLen * (sampleLen / axiomLen) ^ (iterations / samples))`
(`Math.round` of a real is `round` here: both are floor of `x + 1/2`).

The one non-finite path of the method: when the axiom is empty and the
extrapolation branch is taken, the sample of the empty axiom is empty,
so `growthFactor = sampleLength / this.axiom.length = 0/0` is `NaN` in
JavaScript and propagates through `Math.pow`, the multiplication and
`Math.round`; the call returns `NaN`.  The result type is therefore
`Option ℤ`, with `none` standing for `NaN` (every other path of the
method yields a finite number in exact arithmetic: the denominator of
the division is then nonzero, its operands are nonnegative, and `round`
of a finite real is finite). -/
noncomputable def LSystem.getEstimatedLength (st : LSystem) (iterations : Nat) :
    Option ℤ :=
  if iterations = 0 then some (st.seed.length : ℤ)
  else
    let samplesToTest := min 3 iterations
    let sampleLength := ((stepString st.rules)^[samplesToTest] st.seed).length
    if samplesToTest = iterations then some (sampleLength : ℤ)
    else if st.seed.length = 0 then none
    else
      let growthFactor : ℝ := (sampleLength : ℝ) / (st.seed.length : ℝ)
      some (round ((st.seed.length : ℝ) *
        growthFactor ^ ((iterations : ℝ) / (samplesToTest : ℝ))))

/-- A method call `st.getEstimatedLength(n)` as (result, post-state):
the method body assigns no instance field (its loop works on the local
`testString`), so the receiver is returned unchanged. -/
noncomputable def LSystem.getEstimatedLengthCall (st : LSystem) (n : Nat) :
    Option ℤ × LSystem :=
  (st.getEstimatedLength n, st)

/-- A sequence of prior `iterate()` / `iterateN(k)` calls on a rewriter
(`iterate()` is `iterateN 1`). -/
def runCalls (st : LSystem) (calls : List Nat) : LSystem :=
  calls.foldl (fun s n => s.iterateN n) st

/-!  Basic lemmas about the rewriter.  -/

theorem stepString_eq_flatMap (rules : Char → Option (List Char)) (s : List Char) :
    stepString rules s = s.flatMap (lookupRepl rules) := by
  have h : ∀ (l : List Char) (acc : List Char),
      l.foldl (fun acc c => acc ++ lookupRepl rules c) acc =
        acc ++ l.flatMap (lookupRepl rules) := by
    intro l
    induction l with
    | nil => intro acc; simp
    | cons c tl ih =>
        intro acc
        simp [List.foldl_cons, ih, List.flatMap_cons, List.append_assoc]
  simpa using h s []

theorem stepString_append (rules : Char → Option (List Char)) (s t : List Char) :
    stepString rules (s ++ t) = stepString rules s ++ stepString rules t := by
  simp [stepString_eq_flatMap]

theorem stepString_nil (rules : Char → Option (List Char)) :
    stepString rules [] = [] := rfl

/-- Iterating `stepString` any number of times distributes over append. -/
theorem stepString_iterate_append (rules : Char → Option (List Char))
    (n : Nat) (s t : List Char) :
    (stepString rules)^[n] (s ++ t) =
      (stepString rules)^[n] s ++ (stepString rules)^[n] t := by
  induction n generalizing s t with
  | zero => simp
  | succ n ih =>
      simp only [Function.iterate_succ_apply, stepString_append]
      exact ih _ _

theorem stepString_iterate_nil (rules : Char → Option (List Char)) (n : Nat) :
    (stepString rules)^[n] [] = [] := by
  induction n with
  | zero => rfl
  | succ n ih => simp [Function.iterate_succ_apply, stepString_nil, ih]

/-- The recursive lazy expansion of a string at depth `n` equals `n`
eager rewrites of that string. -/
theorem expandString_eq_iterate (rules : Char → Option (List Char))
    (s : List Char) (n : Nat) :
    expandString rules s n = (stepString rules)^[n] s := by
  induction n generalizing s with
  | zero => rfl
  | succ n ih =>
      have hmap : ∀ l : List Char,
          l.flatMap (fun c => (stepString rules)^[n] (lookupRepl rules c)) =
            (stepString rules)^[n] (l.flatMap (lookupRepl rules)) := by
        intro l
        induction l with
        | nil => simp [stepString_iterate_nil]
        | cons c tl ihl =>
            simp [List.flatMap_cons, ihl, stepString_iterate_append]
      calc expandString rules s (n + 1)
          = s.flatMap (fun c => expandString rules (lookupRepl rules c) n) := rfl
        _ = s.flatMap (fun c => (stepString rules)^[n] (lookupRepl rules c)) := by
              simp only [ih]
        _ = (stepString rules)^[n] (s.flatMap (lookupRepl rules)) := hmap s
        _ = (stepString rules)^[n] (stepString rules s) := by
              rw [stepString_eq_flatMap]
        _ = (stepString rules)^[n + 1] s := by
              rw [Function.iterate_succ_apply]

theorem iterateN_eq_iterate (st : LSystem) (n : Nat) :
    st.iterateN n =
      { st with currentGeneration := (stepString st.rules)^[n] st.currentGeneration,
                generation := st.generation + n } := by
  induction n generalizing st with
  | zero => rfl
  | succ n ih =>
      show st.iterate.iterateN n = _
      rw [ih]
      simp [LSystem.iterate, Function.iterate_succ_apply, Nat.add_comm,
        Nat.add_assoc, Nat.add_left_comm]

theorem iterateN_currentGeneration (st : LSystem) (n : Nat) :
    (st.iterateN n).currentGeneration =
      (stepString st.rules)^[n] st.currentGeneration := by
  rw [iterateN_eq_iterate]

theorem iterateN_seed (st : LSystem) (n : Nat) :
    (st.iterateN n).seed = st.seed := by
  rw [iterateN_eq_iterate]

theorem iterateN_rules (st : LSystem) (n : Nat) :
    (st.iterateN n).rules = st.rules := by
  rw [iterateN_eq_iterate]

theorem runCalls_seed (st : LSystem) (calls : List Nat) :
    (runCalls st calls).seed = st.seed := by
  induction calls generalizing st with
  | nil => rfl
  | cons n tl ih =>
      show (runCalls (st.iterateN n) tl).seed = st.seed
      rw [ih, iterateN_seed]

theorem runCalls_rules (st : LSystem) (calls : List Nat) :
    (runCalls st calls).rules = st.rules := by
  induction calls generalizing st with
  | nil => rfl
  | cons n tl ih =>
      show (runCalls (st.iterateN n) tl).rules = st.rules
      rw [ih, iterateN_rules]

/-- The method `generateCommands` reads only the `axiom` and `rules` fields. -/
theorem generateCommands_congr (st st' : LSystem) (n : Nat)
    (hseed : st.seed = st'.seed) (hrules : st.rules = st'.rules) :
    st.generateCommands n = st'.generateCommands n := by
  unfold LSystem.generateCommands
  rw [hseed, hrules]

/-- The method `getEstimatedLength` reads only the `axiom` and `rules` fields. -/
theorem getEstimatedLength_congr (st st' : LSystem) (n : Nat)
    (hseed : st.seed = st'.seed) (hrules : st.rules = st'.rules) :
    st.getEstimatedLength n = st'.getEstimatedLength n := by
  unfold LSystem.getEstimatedLength
  rw [hseed, hrules]

theorem iterateN_add (st : LSystem) (n m : Nat) :
    (st.iterateN n).iterateN m = st.iterateN (n + m) := by
  induction n generalizing st with
  | zero => rw [Nat.zero_add]; rfl
  | succ n ih =>
      show (st.iterate.iterateN n).iterateN m = st.iterateN (n + 1 + m)
      rw [show n + 1 + m = (n + m) + 1 from by omega]
      exact ih st.iterate

/-- The replacement policy exactly as claim C2 states it: a mapped
symbol is replaced by its rule's right-hand side even when that side is
the empty sequence. (This differs from the source's `replacement || char`,
which treats an empty right-hand side as falsy.) -/
def specReplacement (rules : Char → Option (List Char)) (c : Char) : List Char :=
  match rules c with
  | some r => r
  | none => [c]

/-- A rule set mapping `F` to the empty string. -/
def rulesEmptyF : Char → Option (List Char) :=
  fun c => if c = 'F' then some [] else none

/-- Rewriter over axiom `"F"` with the rule `F → ""`. -/
def stEmptyF : LSystem := LSystem.create ['F'] rulesEmptyF

/-- A rule set mapping `F` to `"FF"` (uniform growth factor 2). -/
def rulesFF : Char → Option (List Char) :=
  fun c => if c = 'F' then some ['F', 'F'] else none

/-! ## Claim theorems for the rewriter -/

/-- C1: for every axiom, rule set and `n ≥ 0`, the symbol sequence
yielded by the lazy expander `generateCommands(n)` equals, character for
character, the sequence produced by eager `iterateN(n)` from a fresh
reset. -/
theorem C1_generateCommands_eq_eager (st : LSystem) (n : Nat) :
    st.generateCommands n = (st.reset.iterateN n).currentGeneration := by
  rw [iterateN_currentGeneration]
  unfold LSystem.generateCommands LSystem.reset
  by_cases h : n = 0
  · subst h; rfl
  · simp only [h, if_false, expandString_eq_iterate]

/-- C2 counterexample: with axiom `"F"` and the rule `F → ""`,
`iterate()` does not produce the concatenation of rule right-hand sides
as the claim states (honoring an empty right-hand side): the code's
`replacement || char` treats the empty replacement as falsy and lets
`F` pass through, so the next generation is `"F"`, not `""`. -/
theorem C2_iterate_empty_rhs_counterexample :
    ¬ ((stEmptyF.iterate).currentGeneration =
          stEmptyF.currentGeneration.flatMap (specReplacement stEmptyF.rules) ∧
        (stEmptyF.iterate).generation = stEmptyF.generation + 1) := by
  decide

/-- C2 amended: one `iterate()` call produces the concatenation, in
original order, of each symbol's rule right-hand side when that side is
nonempty, and the symbol itself when it is unmapped or its right-hand
side is the empty sequence; and it increments the generation counter by
exactly one. -/
theorem C2_iterate_concat_amended (st : LSystem) :
    (st.iterate).currentGeneration =
      st.currentGeneration.flatMap (fun c =>
        match st.rules c with
        | some r => if r.isEmpty then [c] else r
        | none => [c]) ∧
    (st.iterate).generation = st.generation + 1 := by
  refine ⟨?_, rfl⟩
  show stepString st.rules st.currentGeneration = _
  rw [stepString_eq_flatMap]
  rfl

/-- C7: from a fresh reset, `iterateN(n)` followed by `iterateN(m)`
yields the same state (symbol sequence and generation counter) as
`iterateN(n+m)`, and `iterateN(0)` changes nothing. -/
theorem C7_iterateN_compose (st : LSystem) (n m : Nat) :
    ((st.reset.iterateN n).iterateN m = st.reset.iterateN (n + m)) ∧
      st.reset.iterateN 0 = st.reset :=
  ⟨iterateN_add st.reset n m, rfl⟩

/-- C9: after any number of prior `iterate()`/`iterateN()` calls,
`reset()` restores the construction-time axiom and generation 0. -/
theorem C9_reset_restores (a : List Char) (rules : Char → Option (List Char))
    (calls : List Nat) :
    ((runCalls (LSystem.create a rules) calls).reset).currentGeneration = a ∧
      ((runCalls (LSystem.create a rules) calls).reset).generation = 0 := by
  constructor
  · show (runCalls (LSystem.create a rules) calls).seed = a
    rw [runCalls_seed]; rfl
  · rfl

/-- C10: `generateCommands(n)` and `getEstimatedLength(n)` derive their
output only from the construction-time axiom and rules — after any
prior iteration calls they return what they return on a fresh instance —
and the calls leave `getCurrentGeneration()`/`getGeneration()`
unchanged (the method bodies assign no instance field). -/
theorem C10_frame (a : List Char) (rules : Char → Option (List Char))
    (calls : List Nat) (n : Nat) :
    (runCalls (LSystem.create a rules) calls).generateCommands n =
        (LSystem.create a rules).generateCommands n ∧
    (runCalls (LSystem.create a rules) calls).getEstimatedLength n =
        (LSystem.create a rules).getEstimatedLength n ∧
    ((runCalls (LSystem.create a rules) calls).generateCommandsCall n).2.getCurrentGeneration =
        (runCalls (LSystem.create a rules) calls).getCurrentGeneration ∧
    ((runCalls (LSystem.create a rules) calls).generateCommandsCall n).2.getGeneration =
        (runCalls (LSystem.create a rules) calls).getGeneration ∧
    ((runCalls (LSystem.create a rules) calls).getEstimatedLengthCall n).2.getCurrentGeneration =
        (runCalls (LSystem.create a rules) calls).getCurrentGeneration ∧
    ((runCalls (LSystem.create a rules) calls).getEstimatedLengthCall n).2.getGeneration =
        (runCalls (LSystem.create a rules) calls).getGeneration := by
  refine ⟨?_, ?_, rfl, rfl, rfl, rfl⟩
  · exact generateCommands_congr _ _ n (runCalls_seed _ _) (runCalls_rules _ _)
  · exact getEstimatedLength_congr _ _ n (runCalls_seed _ _) (runCalls_rules _ _)

theorem length_flatMap_uniform (f : Char → List Char) (g : Nat) :
    ∀ s : List Char, (∀ c ∈ s, (f c).length = g) →
      (s.flatMap f).length = s.length * g := by
  intro s
  induction s with
  | nil => intro _; simp
  | cons c tl ih =>
      intro h
      rw [List.flatMap_cons, List.length_append, h c (List.mem_cons_self c tl),
        ih (fun x hx => h x (List.mem_cons_of_mem c hx))]
      simp [List.length_cons]
      ring

/-- Under a uniform per-symbol replacement length `g` across the first
`N` generations, `k ≤ N` rewrites multiply the axiom's length by `g^k`. -/
theorem length_iterate_uniform (rules : Char → Option (List Char))
    (a : List Char) (g N : Nat)
    (h : ∀ k, k < N → ∀ c ∈ (stepString rules)^[k] a,
        (lookupRepl rules c).length = g) :
    ∀ k, k ≤ N → ((stepString rules)^[k] a).length = a.length * g ^ k := by
  intro k
  induction k with
  | zero => intro _; simp
  | succ k ih =>
      intro hk
      have hstep := length_flatMap_uniform (lookupRepl rules) g
        ((stepString rules)^[k] a) (h k (by omega))
      rw [Function.iterate_succ_apply', stepString_eq_flatMap, hstep,
        ih (by omega), pow_succ]
      ring

/-- C8 counterexample: the empty axiom satisfies the uniform-growth
hypothesis vacuously (no symbol occurs in any reachable generation),
and every generation has length 0, yet `getEstimatedLength(4)` takes
the extrapolation branch, divides `0/0` and returns `NaN` (`none`), not
the exact length 0: the estimator is not exact for every axiom. -/
theorem C8_empty_axiom_counterexample :
    ¬ ((LSystem.create [] rulesFF).getEstimatedLength 4 =
        some ((((LSystem.create [] rulesFF).iterateN 4).currentGeneration).length
          : ℤ)) := by
  have h : (LSystem.create [] rulesFF).getEstimatedLength 4 = none := by
    simp [LSystem.getEstimatedLength, LSystem.create]
  rw [h]
  simp

/-- C8 amended: when every symbol occurring in the generations sampled
or produced has a replacement of the same length `g` and the axiom is
nonempty, the estimator is exact: `getEstimatedLength(N)` equals the
length of the eager generation-`N` string (in exact real arithmetic,
`Math.round` read as `round`); in particular, for `N` with
`min(3, N) == N` it returns the exact sampled length.  (For the empty
axiom with `N > 3` the extrapolation divides `0/0` and the call returns
`NaN` instead of a number.) -/
theorem C8_getEstimatedLength_exact (a : List Char)
    (rules : Char → Option (List Char)) (g N : Nat)
    (hne : a ≠ [])
    (h : ∀ k, k < N → ∀ c ∈ (stepString rules)^[k] a,
        (lookupRepl rules c).length = g) :
    (LSystem.create a rules).getEstimatedLength N =
      some ((((LSystem.create a rules).iterateN N).currentGeneration).length
        : ℤ) := by
  have hL : a.length ≠ 0 := fun hl => hne (List.length_eq_zero.mp hl)
  have hlen : ∀ k, k ≤ N → ((stepString rules)^[k] a).length = a.length * g ^ k :=
    length_iterate_uniform rules a g N h
  have hRHS : (((LSystem.create a rules).iterateN N).currentGeneration).length
      = a.length * g ^ N := by
    rw [iterateN_currentGeneration]
    exact hlen N le_rfl
  rw [hRHS]
  unfold LSystem.getEstimatedLength
  by_cases h0 : N = 0
  · subst h0
    simp [LSystem.create]
  · rw [if_neg h0]
    simp only [LSystem.create]
    by_cases hs : min 3 N = N
    · rw [if_pos hs, hs, hlen N le_rfl]
    · rw [if_neg hs]
      have h3 : 3 < N := by
        rcases Nat.lt_or_ge 3 N with h' | h'
        · exact h'
        · exact absurd (Nat.min_eq_right h') hs
      have hmin : min 3 N = 3 := Nat.min_eq_left (by omega)
      rw [hmin, hlen 3 (by omega), if_neg hL]
      have hLr : ((a.length : ℝ)) ≠ 0 := Nat.cast_ne_zero.mpr hL
      have hGF : ((a.length * g ^ 3 : ℕ) : ℝ) / ((a.length : ℕ) : ℝ)
          = ((g : ℝ)) ^ (3 : ℕ) := by
        push_cast
        field_simp
      rw [hGF]
      have hpow : (((g : ℝ)) ^ (3 : ℕ)) ^ (((N : ℕ) : ℝ) / ((3 : ℕ) : ℝ))
          = ((g : ℝ)) ^ (N : ℕ) := by
        have hg : (0 : ℝ) ≤ (g : ℝ) := Nat.cast_nonneg g
        rw [← Real.rpow_natCast (g : ℝ) 3, ← Real.rpow_mul hg,
          Nat.cast_ofNat]
        rw [mul_comm, div_mul_cancel₀ _ (by norm_num : (3 : ℝ) ≠ 0)]
        rw [Real.rpow_natCast]
      rw [hpow]
      rw [show ((a.length : ℝ)) * ((g : ℝ)) ^ (N : ℕ)
          = ((a.length * g ^ N : ℕ) : ℝ) by push_cast; ring]
      rw [round_natCast]

/-- Witness for C8 (amended): nonempty axiom `"F"`, rule `F → "FF"`
(uniform growth factor 2), `N = 5`: the estimate equals the exact
generation-5 length. -/
theorem C8_getEstimatedLength_exact_witness :
    (LSystem.create ['F'] rulesFF).getEstimatedLength 5 =
      some ((((LSystem.create ['F'] rulesFF).iterateN 5).currentGeneration).length
        : ℤ) :=
  C8_getEstimatedLength_exact ['F'] rulesFF 2 5 (by decide) (by decide)

end LSys

namespace Turtle

/-!
Embedding of `TurtleRenderer` (the lazy/animated generation in
src/lsystem.ts).  The numeric type is a parameter `α` together with the
two trigonometric functions the code calls (`Math.cos`, `Math.sin`) and
the constant `Math.PI`; the intended instantiation is `ℝ` with
`Real.cos`/`Real.sin`/`Real.pi` (`realCfg` below), and witnesses use
`ℚ` so states can be compared by `decide`.  The canvas context is
embedded by the list of stroked segments plus the current path point
(`moveTo`/`lineTo` target); the bound generator is the list of symbols
it has not yet yielded (`none` models the `null` generator).
-/

/-- Source `interface TurtleState \x7b x; y; angle \x7d` — one saved cursor. -/
structure TurtleState (α : Type) where
  x : α
  y : α
  angle : α
deriving DecidableEq

/-- Source `interface Transform \x7b scale; offsetX; offsetY \x7d`. -/
structure Transform (α : Type) where
  scale : α
  offsetX : α
  offsetY : α
deriving DecidableEq

/-- The constructor-time configuration: `stepSize`, the angle step
already converted to radians (`angleStep * (Math.PI / 180)`), the math
library primitives used, and the canvas dimensions read by `reset()`. -/
structure TurtleConfig (α : Type) where
  stepSize : α
  angleStep : α
  cosFn : α → α
  sinFn : α → α
  canvasW : α
  canvasH : α
  pi : α

/-- The mutable state of a `TurtleRenderer`: cursor (`x`, `y`, `angle`),
saved-cursor `stack`, canvas content (`segments`) and path point, plus
the animation fields (`commandGenerator`, `commandsProcessed`,
`estimatedTotalCommands`, `isAnimating`, `isPaused`, and whether a
timeout is scheduled, modelling `animationTimeoutId !== null`). -/
structure Renderer (α : Type) where
  x : α
  y : α
  angle : α
  stack : List (TurtleState α)
  segments : List ((α × α) × (α × α))
  pathPos : α × α
  commandGenerator : Option (List Char)
  commandsProcessed : Nat
  estimatedTotalCommands : ℤ
  isAnimating : Bool
  isPaused : Bool
  timeoutScheduled : Bool
deriving DecidableEq

variable {α : Type} [Field α]

/-- Source `drawForward()`: advance the cursor one step along the heading,
stroking a segment from the current path point to the new position
(`lineTo`; `stroke`; `beginPath`; `moveTo`). -/
def drawForward (cfg : TurtleConfig α) (st : Renderer α) : Renderer α :=
  let newX := st.x + cfg.stepSize * cfg.cosFn st.angle
  let newY := st.y + cfg.stepSize * cfg.sinFn st.angle
  { st with x := newX, y := newY,
            segments := (st.pathPos, (newX, newY)) :: st.segments,
            pathPos := (newX, newY) }

/-- Source `moveForward()`: advance without drawing (`moveTo` only). -/
def moveForward (cfg : TurtleConfig α) (st : Renderer α) : Renderer α :=
  let newX := st.x + cfg.stepSize * cfg.cosFn st.angle
  let newY := st.y + cfg.stepSize * cfg.sinFn st.angle
  { st with x := newX, y := newY, pathPos := (newX, newY) }

/-- Source `turnRight()`: `this.angle += this.angleStep`. -/
def turnRight (cfg : TurtleConfig α) (st : Renderer α) : Renderer α :=
  { st with angle := st.angle + cfg.angleStep }

/-- Source `turnLeft()`: `this.angle -= this.angleStep`. -/
def turnLeft (cfg : TurtleConfig α) (st : Renderer α) : Renderer α :=
  { st with angle := st.angle - cfg.angleStep }

/-- Source `pushState()`: push the current cursor onto the stack. -/
def pushState (st : Renderer α) : Renderer α :=
  { st with stack := ⟨st.x, st.y, st.angle⟩ :: st.stack }

/-- Source `popState()`: `this.stack.pop()` returns `undefined` on an empty
stack and the guarded restore is skipped; otherwise the popped cursor
is restored and the path moves there. -/
def popState (st : Renderer α) : Renderer α :=
  match st.stack with
  | [] => st
  | s :: rest =>
      { st with x := s.x, y := s.y, angle := s.angle, stack := rest,
                pathPos := (s.x, s.y) }

/-- Source `executeCommand(command)`: the `switch` over recognized symbols;
`F` and `G` share the `drawForward` case and anything else is ignored. -/
def executeCommand (cfg : TurtleConfig α) (st : Renderer α) (command : Char) :
    Renderer α :=
  if command = 'F' then drawForward cfg st
  else if command = 'G' then drawForward cfg st
  else if command = 'f' then moveForward cfg st
  else if command = '+' then turnRight cfg st
  else if command = '-' then turnLeft cfg st
  else if command = '[' then pushState st
  else if command = ']' then popState st
  else st

/-- Executing a command sequence in order (one `executeCommand` per
symbol, as the animation loop does). -/
def runCommands (cfg : TurtleConfig α) (s : List Char) (st : Renderer α) :
    Renderer α :=
  s.foldl (executeCommand cfg) st

/-- Source `reset()`: cursor to the horizontal center near the bottom, heading
`-Math.PI / 2`, stack cleared. -/
def resetCursor (cfg : TurtleConfig α) (st : Renderer α) : Renderer α :=
  { st with x := cfg.canvasW / 2, y := cfg.canvasH - 50,
            angle := -(cfg.pi / 2), stack := [] }

/-- The renderer right after construction (constructor ends in
`this.reset()`). -/
def initRenderer (cfg : TurtleConfig α) : Renderer α :=
  resetCursor cfg
    { x := 0, y := 0, angle := 0, stack := [], segments := [],
      pathPos := (0, 0), commandGenerator := none, commandsProcessed := 0,
      estimatedTotalCommands := 0, isAnimating := false, isPaused := false,
      timeoutScheduled := false }

/-- Source `draw(commandGenerator, estimatedLength)`: bind the stream, zero the
processed count, record the estimate, and prime the canvas path at the
cursor (`beginPath`; `moveTo(x, y)`). -/
def draw (g : List Char) (estimatedLength : ℤ) (st : Renderer α) : Renderer α :=
  { st with commandGenerator := some g, commandsProcessed := 0,
            estimatedTotalCommands := estimatedLength, pathPos := (st.x, st.y) }

/-- One invocation of `processNextCommand()` (one animation tick): do
nothing when stopped or paused; pull one symbol from the generator
(`done` marks the end of the stream and ends the animation), execute
it, bump the processed count, and schedule the next tick. -/
def processNextCommand (cfg : TurtleConfig α) (st : Renderer α) : Renderer α :=
  if !st.isAnimating || st.isPaused then st
  else
    match st.commandGenerator with
    | none => { st with isAnimating := false }
    | some [] => { st with isAnimating := false }
    | some (c :: rest) =>
        let st1 := { st with commandGenerator := some rest }
        let st2 := executeCommand cfg st1 c
        { st2 with commandsProcessed := st.commandsProcessed + 1,
                   timeoutScheduled := true }

/-- Source `startAnimation()`: no-op without a bound generator, idempotent
while running unpaused; otherwise mark running and immediately process
one command. -/
def startAnimation (cfg : TurtleConfig α) (st : Renderer α) : Renderer α :=
  if st.commandGenerator = none then st
  else if st.isAnimating && !st.isPaused then st
  else processNextCommand cfg { st with isAnimating := true, isPaused := false }

/-- Source `stopAnimation()`: halt and unpause, cancel the pending tick, zero
the processed count, clear the canvas, `reset()` the cursor, and prime
the path at the reset cursor.  The bound generator is left untouched. -/
def stopAnimation (cfg : TurtleConfig α) (st : Renderer α) : Renderer α :=
  let st1 := { st with isAnimating := false, isPaused := false,
                       timeoutScheduled := false, commandsProcessed := 0,
                       segments := [] }
  let st2 := resetCursor cfg st1
  { st2 with pathPos := (st2.x, st2.y) }

/-- Source `handleWheel(e)` restricted to its effect on the view transform, in
exact arithmetic: `deltaYPos` is the sign test `e.deltaY > 0`, and the
JavaScript literals `0.9`/`1.1`/`0.1` are the exact `9/10`, `11/10`,
`1/10`. -/
def handleWheel {β : Type} [LinearOrderedField β] (t : Transform β)
    (mouseX mouseY : β) (deltaYPos : Bool) : Transform β :=
  let zoomFactor : β := if deltaYPos then 9 / 10 else 11 / 10
  let newScale := max (1 / 10) (min 10 (t.scale * zoomFactor))
  let worldX := (mouseX - t.offsetX) / t.scale
  let worldY := (mouseY - t.offsetY) / t.scale
  { scale := newScale,
    offsetX := mouseX - worldX * newScale,
    offsetY := mouseY - worldY * newScale }

/-- The intended real-number instantiation of the configuration:
`Math.cos`, `Math.sin` and `Math.PI` are `Real.cos`, `Real.sin` and
`Real.pi`, with the constructor's degree-to-radian conversion. -/
noncomputable def realCfg (stepSize angleStepDeg canvasW canvasH : ℝ) :
    TurtleConfig ℝ :=
  { stepSize := stepSize, angleStep := angleStepDeg * (Real.pi / 180),
    cosFn := Real.cos, sinFn := Real.sin,
    canvasW := canvasW, canvasH := canvasH, pi := Real.pi }

/-- A concrete rational configuration used by the evaluation witnesses
(the trigonometric primitives are stand-ins; every theorem below holds
for arbitrary `cosFn`/`sinFn`). -/
def demoCfg : TurtleConfig ℚ :=
  { stepSize := 10, angleStep := 1, cosFn := fun _ => 1,
    sinFn := fun _ => 0, canvasW := 800, canvasH := 600, pi := 3 }

/-- Bracket balance check: `d` open brackets so far; a `]` with no
earlier unmatched `[` fails, and at the end every `[` must be closed
("every `]` matched by an earlier `[`, equal counts"). -/
def checkBalanced : List Char → Nat → Bool
  | [], d => d == 0
  | c :: rest, d =>
      if c = '[' then checkBalanced rest (d + 1)
      else if c = ']' then
        match d with
        | 0 => false
        | d' + 1 => checkBalanced rest d'
      else checkBalanced rest d

/-- A command sequence whose brackets are balanced. -/
def Balanced (s : List Char) : Prop := checkBalanced s 0 = true

instance (s : List Char) : Decidable (Balanced s) := by
  unfold Balanced
  exact inferInstance

/-!  Frame lemmas: which fields each command can touch.  -/

theorem executeCommand_stack_other (cfg : TurtleConfig α) (st : Renderer α)
    (c : Char) (h1 : c ≠ '[') (h2 : c ≠ ']') :
    (executeCommand cfg st c).stack = st.stack := by
  unfold executeCommand
  split_ifs <;>
    simp_all [drawForward, moveForward, turnRight, turnLeft]

theorem executeCommand_commandGenerator (cfg : TurtleConfig α)
    (st : Renderer α) (c : Char) :
    (executeCommand cfg st c).commandGenerator = st.commandGenerator := by
  unfold executeCommand
  split_ifs <;>
    first
      | rfl
      | simp [drawForward]
      | simp [moveForward]
      | simp [turnRight]
      | simp [turnLeft]
      | simp [pushState]
      | (unfold popState; cases st.stack <;> rfl)

/-- Popping restores the top saved cursor and drops it from the stack. -/
theorem popState_cons (st : Renderer α) (p : TurtleState α)
    (rest : List (TurtleState α)) (h : st.stack = p :: rest) :
    popState st = { st with x := p.x, y := p.y, angle := p.angle,
                            stack := rest, pathPos := (p.x, p.y) } := by
  unfold popState
  rw [h]

/-- Stack discipline, generalised: running a sequence whose brackets
close exactly the `d` frames on top of `base` (and never more) pops the
stack back to `base`. -/
theorem runCommands_stack_aux (cfg : TurtleConfig α) :
    ∀ (s : List Char) (d : Nat) (st : Renderer α)
      (pushed base : List (TurtleState α)),
      checkBalanced s d = true →
      st.stack = pushed ++ base → pushed.length = d →
      (runCommands cfg s st).stack = base := by
  intro s
  induction s with
  | nil =>
      intro d st pushed base hbal hstack hlen
      have hd : d = 0 := by simpa [checkBalanced] using hbal
      have hp : pushed = [] := List.length_eq_zero.mp (by rw [hlen, hd])
      show st.stack = base
      rw [hstack, hp, List.nil_append]
  | cons c rest ih =>
      intro d st pushed base hbal hstack hlen
      show (runCommands cfg rest (executeCommand cfg st c)).stack = base
      by_cases hc1 : c = '['
      · subst hc1
        have hbal' : checkBalanced rest (d + 1) = true := by
          simpa [checkBalanced] using hbal
        refine ih (d + 1) _ (⟨st.x, st.y, st.angle⟩ :: pushed) base hbal' ?_ ?_
        · simp [executeCommand, pushState, hstack]
        · simp [hlen]
      · by_cases hc2 : c = ']'
        · subst hc2
          match d, hlen with
          | 0, hlen =>
              simp [checkBalanced] at hbal
          | d' + 1, hlen =>
              have hbal' : checkBalanced rest d' = true := by
                simpa [checkBalanced, hc1] using hbal
              match pushed, hlen with
              | p :: pushed', hlen =>
                  refine ih d' _ pushed' base hbal' ?_ ?_
                  · rw [List.cons_append] at hstack
                    simp [executeCommand, popState, hstack]
                  · simpa using hlen
        · have hbal' : checkBalanced rest d = true := by
            simpa [checkBalanced, hc1, hc2] using hbal
          exact ih d _ pushed base hbal'
            (by rw [executeCommand_stack_other cfg st c hc1 hc2, hstack]) hlen

/-- Running a balanced sequence restores the saved-cursor stack
exactly. -/
theorem runCommands_stack_balanced (cfg : TurtleConfig α) (s : List Char)
    (st : Renderer α) (h : Balanced s) :
    (runCommands cfg s st).stack = st.stack :=
  runCommands_stack_aux cfg s 0 st [] st.stack h (List.nil_append _).symm rfl

/-- C4: executing one balanced `[` … `]` block (the final `]` matches
the opening `[`, brackets inside are balanced) leaves the cursor
(`x`, `y`, heading) and the saved-cursor stack exactly as before,
whatever draw/move/turn commands the block contains. -/
theorem C4_balanced_block_restores (cfg : TurtleConfig α) (w : List Char)
    (st : Renderer α) (hw : Balanced w) :
    (runCommands cfg ('[' :: w ++ [']']) st).x = st.x ∧
    (runCommands cfg ('[' :: w ++ [']']) st).y = st.y ∧
    (runCommands cfg ('[' :: w ++ [']']) st).angle = st.angle ∧
    (runCommands cfg ('[' :: w ++ [']']) st).stack = st.stack := by
  have hsplit : runCommands cfg ('[' :: w ++ [']']) st =
      executeCommand cfg (runCommands cfg w (executeCommand cfg st '[')) ']' := by
    simp [runCommands, List.foldl_append]
  have hpush : executeCommand cfg st '[' = pushState st := by
    simp [executeCommand]
  have hstack : (runCommands cfg w (executeCommand cfg st '[')).stack =
      ⟨st.x, st.y, st.angle⟩ :: st.stack := by
    rw [runCommands_stack_balanced cfg w _ hw, hpush]
    rfl
  have hpop : executeCommand cfg
      (runCommands cfg w (executeCommand cfg st '[')) ']' =
      popState (runCommands cfg w (executeCommand cfg st '[')) := by
    simp [executeCommand]
  rw [hsplit, hpop, popState_cons _ _ _ hstack]
  simp

/-- Witness for C4: the block `[F+F]` from the freshly constructed
renderer restores cursor and stack. -/
theorem C4_balanced_block_restores_witness :
    (runCommands demoCfg ('[' :: ['F', '+', 'F'] ++ [']'])
        (initRenderer demoCfg)).x = (initRenderer demoCfg).x ∧
    (runCommands demoCfg ('[' :: ['F', '+', 'F'] ++ [']'])
        (initRenderer demoCfg)).y = (initRenderer demoCfg).y ∧
    (runCommands demoCfg ('[' :: ['F', '+', 'F'] ++ [']'])
        (initRenderer demoCfg)).angle = (initRenderer demoCfg).angle ∧
    (runCommands demoCfg ('[' :: ['F', '+', 'F'] ++ [']'])
        (initRenderer demoCfg)).stack = (initRenderer demoCfg).stack :=
  C4_balanced_block_restores demoCfg ['F', '+', 'F'] (initRenderer demoCfg)
    (by decide)

/-- C5: a `]` executed when the saved-cursor stack is empty is a no-op
(cursor, heading and stack unchanged, no error): appending a surplus
trailing `]` to any sequence that empties the stack leaves the turtle
in the state the matched commands produced. -/
theorem C5_pop_empty_noop (cfg : TurtleConfig α) (s : List Char)
    (st : Renderer α) (h : (runCommands cfg s st).stack = []) :
    runCommands cfg (s ++ [']']) st = runCommands cfg s st := by
  have hsplit : runCommands cfg (s ++ [']']) st =
      executeCommand cfg (runCommands cfg s st) ']' := by
    simp [runCommands, List.foldl_append]
  have hpop : executeCommand cfg (runCommands cfg s st) ']' =
      popState (runCommands cfg s st) := by
    simp [executeCommand]
  rw [hsplit, hpop]
  unfold popState
  rw [h]

/-- Witness for C5: a dangling `]` right after construction (empty
stack) is a no-op. -/
theorem C5_pop_empty_noop_witness :
    runCommands demoCfg ([']'] ++ [']']) (initRenderer demoCfg) =
      runCommands demoCfg [']'] (initRenderer demoCfg) :=
  C5_pop_empty_noop demoCfg [']'] (initRenderer demoCfg) (by decide)

/-- C6: with the old scale in `[0.1, 10]`, a wheel event at pointer
`(mouseX, mouseY)` yields the multiplicative scale clamped to
`[0.1, 10]`, and the world point that mapped to the pointer under the
old transform (`screen = world * scale + offset`) maps to exactly the
pointer under the new transform, in exact arithmetic. -/
theorem C6_zoom_at_point {β : Type} [LinearOrderedField β]
    (t : Transform β) (mouseX mouseY : β) (d : Bool) (wx wy : β)
    (hlo : 1 / 10 ≤ t.scale) (hhi : t.scale ≤ 10) :
    (handleWheel t mouseX mouseY d).scale
        = max (1 / 10) (min 10 (t.scale * (if d then 9 / 10 else 11 / 10))) ∧
    (wx * t.scale + t.offsetX = mouseX →
      wx * (handleWheel t mouseX mouseY d).scale
        + (handleWheel t mouseX mouseY d).offsetX = mouseX) ∧
    (wy * t.scale + t.offsetY = mouseY →
      wy * (handleWheel t mouseX mouseY d).scale
        + (handleWheel t mouseX mouseY d).offsetY = mouseY) := by
  have hpos : (0 : β) < t.scale := lt_of_lt_of_le (by norm_num) hlo
  have hne : t.scale ≠ 0 := ne_of_gt hpos
  simp only [handleWheel]
  refine ⟨by trivial, ?_, ?_⟩
  · intro hw
    have hwx : wx = (mouseX - t.offsetX) / t.scale := by
      rw [eq_div_iff hne]
      linarith
    rw [hwx]
    ring
  · intro hw
    have hwy : wy = (mouseY - t.offsetY) / t.scale := by
      rw [eq_div_iff hne]
      linarith
    rw [hwy]
    ring

/-- Witness for C6: identity transform, pointer at `(100, 50)`,
zoom out (`deltaY > 0`), world point `(100, 50)`. -/
theorem C6_zoom_at_point_witness :
    ((handleWheel ⟨1, 0, 0⟩ (100 : ℚ) 50 true).scale
        = max (1 / 10) (min 10 ((1 : ℚ) * (if true then 9 / 10 else 11 / 10))) ∧
      ((100 : ℚ) * (1 : ℚ) + 0 = 100 →
        100 * (handleWheel (⟨1, 0, 0⟩ : Transform ℚ) 100 50 true).scale
          + (handleWheel (⟨1, 0, 0⟩ : Transform ℚ) 100 50 true).offsetX = 100) ∧
      ((50 : ℚ) * (1 : ℚ) + 0 = 50 →
        50 * (handleWheel (⟨1, 0, 0⟩ : Transform ℚ) 100 50 true).scale
          + (handleWheel (⟨1, 0, 0⟩ : Transform ℚ) 100 50 true).offsetY = 50)) :=
  C6_zoom_at_point (⟨1, 0, 0⟩ : Transform ℚ) 100 50 true 100 50
    (by norm_num) (by norm_num)

/-- C3 counterexample: bind the two-symbol stream `"FF"`, animate one
symbol, stop.  If a subsequent `startAnimation()` restarted from the
beginning of the bound stream, its immediate first tick would consume
the first of the two symbols and leave one pending; in fact the
generator had already advanced past the first symbol and
`stopAnimation` does not (and cannot) rewind it, so the restart
consumes the second symbol and the stream is exhausted. -/
theorem C3_stop_counterexample :
    ¬ ((startAnimation demoCfg (stopAnimation demoCfg
          (startAnimation demoCfg
            (draw ['F', 'F'] 2 (initRenderer demoCfg))))).commandGenerator
        = some ['F']) := by
  decide

/-- C3 amended: `stopAnimation()` zeroes the processed count, resets
the cursor and stack and clears the canvas (so drawing restarts from
the initial drawing state), but it leaves the bound symbol stream at
the position reached before the stop: a subsequent `startAnimation()`
resumes consuming from exactly that position, not from the beginning
of the stream. -/
theorem C3_stop_amended (cfg : TurtleConfig α) (st : Renderer α)
    (c : Char) (rest : List Char)
    (hgen : st.commandGenerator = some (c :: rest)) :
    (stopAnimation cfg st).commandsProcessed = 0 ∧
    (stopAnimation cfg st).x = cfg.canvasW / 2 ∧
    (stopAnimation cfg st).y = cfg.canvasH - 50 ∧
    (stopAnimation cfg st).angle = -(cfg.pi / 2) ∧
    (stopAnimation cfg st).stack = [] ∧
    (stopAnimation cfg st).segments = [] ∧
    (stopAnimation cfg st).commandGenerator = some (c :: rest) ∧
    (startAnimation cfg (stopAnimation cfg st)).commandGenerator = some rest ∧
    (startAnimation cfg (stopAnimation cfg st)).commandsProcessed = 1 := by
  have hstop : (stopAnimation cfg st).commandGenerator = some (c :: rest) := by
    simp [stopAnimation, resetCursor, hgen]
  have hrun : startAnimation cfg (stopAnimation cfg st) =
      processNextCommand cfg { stopAnimation cfg st with
                               isAnimating := true, isPaused := false } := by
    unfold startAnimation
    rw [if_neg (by rw [hstop]; simp),
      if_neg (by simp [stopAnimation, resetCursor])]
  refine ⟨rfl, rfl, rfl, rfl, rfl, rfl, hstop, ?_, ?_⟩
  · rw [hrun]
    unfold processNextCommand
    rw [if_neg (by simp)]
    simp [hstop, executeCommand_commandGenerator]
  · rw [hrun]
    unfold processNextCommand
    rw [if_neg (by simp)]
    simp [hgen, stopAnimation, resetCursor]

/-- Witness for C3 (amended): after drawing one of the two bound
symbols and stopping, the restart consumes the remaining symbol. -/
theorem C3_stop_amended_witness :
    (stopAnimation demoCfg (startAnimation demoCfg
        (draw ['F', 'F'] 2 (initRenderer demoCfg)))).commandsProcessed = 0 ∧
    (stopAnimation demoCfg (startAnimation demoCfg
        (draw ['F', 'F'] 2 (initRenderer demoCfg)))).x = demoCfg.canvasW / 2 ∧
    (stopAnimation demoCfg (startAnimation demoCfg
        (draw ['F', 'F'] 2 (initRenderer demoCfg)))).y = demoCfg.canvasH - 50 ∧
    (stopAnimation demoCfg (startAnimation demoCfg
        (draw ['F', 'F'] 2 (initRenderer demoCfg)))).angle
      = -(demoCfg.pi / 2) ∧
    (stopAnimation demoCfg (startAnimation demoCfg
        (draw ['F', 'F'] 2 (initRenderer demoCfg)))).stack = [] ∧
    (stopAnimation demoCfg (startAnimation demoCfg
        (draw ['F', 'F'] 2 (initRenderer demoCfg)))).segments = [] ∧
    (stopAnimation demoCfg (startAnimation demoCfg
        (draw ['F', 'F'] 2 (initRenderer demoCfg)))).commandGenerator
      = some ('F' :: []) ∧
    (startAnimation demoCfg (stopAnimation demoCfg (startAnimation demoCfg
        (draw ['F', 'F'] 2 (initRenderer demoCfg))))).commandGenerator
      = some [] ∧
    (startAnimation demoCfg (stopAnimation demoCfg (startAnimation demoCfg
        (draw ['F', 'F'] 2 (initRenderer demoCfg))))).commandsProcessed = 1 :=
  C3_stop_amended demoCfg
    (startAnimation demoCfg (draw ['F', 'F'] 2 (initRenderer demoCfg)))
    'F' [] (by decide)

end Turtle

